import Mathlib

/-!
Verification of the NZISM comparison tool (src/compare.py).

This file embeds the core of compare.py in Lean:
  * `sortkey` - the identity key encoder (compare.py lines 22-32),
  * `diff_text` - the markup-aware text differ (lines 35-68), including a
    faithful model of the parts of the Python standard library it uses
    (difflib.SequenceMatcher with isjunk=None and autojunk=True) and of the
    BeautifulSoup stripped-strings text extraction it applies to its inputs,
  * `xpath_findall_cid` and `xpath_find_cid` - the dialect selector helpers
    (lines 71-82),
  * `compare_files` - the change classifier (lines 85-164, restricted to its
    computational core: the construction of the added, removed and changed
    record lists; template rendering and file writing are outside the core).

Strings are handled as character lists (`List Char`), converting to `String`
at the interface; all recursion is structural (where the Python code loops on
a measure that Lean cannot see structurally, an explicit fuel argument larger
than the measure is used, so every definition evaluates by kernel reduction).

Theorems about these definitions settle the frozen claims C1-C10.
-/

set_option maxRecDepth 100000

namespace NZISM

/-! ## String primitives used by compare.py -/

/-- Python str.split for a one-character separator, as in title.split(".").
Matches Python: splitting the empty string gives one empty field, and
separators at the ends produce empty fields. -/
def splitChars (sep : Char) : List Char → List (List Char)
  | [] => [[]]
  | c :: rest =>
    if c = sep then [] :: splitChars sep rest
    else
      match splitChars sep rest with
      | [] => [[c]]
      | seg :: segs => (c :: seg) :: segs

/-- One step of Python str.replace: scan left to right, substituting each
non-overlapping occurrence of `pat` (assumed nonempty, as in the one call
site, pattern ".C-") by `rep`.  The fuel argument only bounds the recursion
depth; `pyReplace` supplies more fuel than the input length, so the fuel-out
branch is never reached. -/
def replaceFuel (pat rep : List Char) : Nat → List Char → List Char
  | 0, s => s
  | _ + 1, [] => []
  | fuel + 1, c :: rest =>
    if pat.isPrefixOf (c :: rest) && !pat.isEmpty then
      rep ++ replaceFuel pat rep fuel ((c :: rest).drop pat.length)
    else
      c :: replaceFuel pat rep fuel rest

/-- Python s.replace(pat, rep) for a nonempty pattern. -/
def pyReplace (pat rep s : List Char) : List Char :=
  replaceFuel pat rep (s.length + 1) s

/-- Whitespace characters recognized by Python str.strip() and int()
(ASCII subset; the documents involved are ASCII). -/
def isPySpace (c : Char) : Bool :=
  c = ' ' || c = '\t' || c = '\n' || c = '\r' || c = '\x0b' || c = '\x0c'

/-- Python s.strip(): remove leading and trailing whitespace. -/
def pyStripChars (l : List Char) : List Char :=
  ((l.dropWhile isPySpace).reverse.dropWhile isPySpace).reverse

/-! ## The Python int() builtin, as used by sortkey

Python int(s) strips surrounding whitespace, then accepts an optional sign
followed by a nonempty run of ASCII digits in which single underscores may
appear between digits.  Failure (ValueError) is `none`. -/

/-- Digit run accumulator: consumes digits, allowing a single underscore
between two digits, as Python int() does.  `none` on any violation. -/
def pyDigitsAux : Nat → List Char → Option Nat
  | acc, [] => some acc
  | acc, '_' :: c :: rest =>
    if c.isDigit then pyDigitsAux (acc * 10 + (c.toNat - 48)) rest else none
  | acc, c :: rest =>
    if c.isDigit then pyDigitsAux (acc * 10 + (c.toNat - 48)) rest else none

/-- Model of Python int(s): optional surrounding whitespace, optional sign,
nonempty digit run.  `none` models ValueError. -/
def pyInt? (s : List Char) : Option Int :=
  match pyStripChars s with
  | '-' :: c :: rest =>
    if c.isDigit then (pyDigitsAux (c.toNat - 48) rest).map (fun n => -(n : Int)) else none
  | '+' :: c :: rest =>
    if c.isDigit then (pyDigitsAux (c.toNat - 48) rest).map (fun n => (n : Int)) else none
  | c :: rest =>
    if c.isDigit then (pyDigitsAux (c.toNat - 48) rest).map (fun n => (n : Int)) else none
  | [] => none

/-! ## Python "{:03d}".format -/

/-- Decimal digits of a natural number, most significant first (Python str(n)
for a nonnegative int).  Fuel-bounded division recursion; `natDigits` supplies
sufficient fuel. -/
def natDigitsFuel : Nat → Nat → List Char
  | 0, _ => []
  | fuel + 1, n =>
    if n < 10 then [Char.ofNat (48 + n)]
    else natDigitsFuel fuel (n / 10) ++ [Char.ofNat (48 + n % 10)]

/-- Decimal digit characters of a natural number. -/
def natDigits (n : Nat) : List Char := natDigitsFuel (n + 1) n

/-- Left-pad a character list with zeros to the given width. -/
def zfillChars (w : Nat) (l : List Char) : List Char :=
  List.replicate (w - l.length) '0' ++ l

/-- Python "{:03d}".format(n): minimum field width 3, zero padded; for a
negative number the sign counts toward the width. -/
def format03d (n : Int) : List Char :=
  if n < 0 then '-' :: zfillChars 2 (natDigits n.natAbs) else zfillChars 3 (natDigits n.toNat)

/-! ## sortkey (compare.py lines 22-32) -/

/-- The loop `for x in [0,1,2,4]: output += "{:03d}".format(int(parts[x]))`.
An out-of-range index models IndexError, a failed parse models ValueError;
either aborts sortkey (`none`). -/
def sortkeyLoop (parts : List (List Char)) : List Nat → Option (List Char)
  | [] => some []
  | x :: xs =>
    match parts[x]? with
    | none => none
    | some seg =>
      match pyInt? seg with
      | none => none
      | some n => (sortkeyLoop parts xs).map (fun rest => format03d n ++ rest)

/-- The dot-separated fields of the title after the dialect normalization
`title.replace(".C-", ".C.")`.  The Python code guards the replace with
`if ".C-" in title`; replacing when the pattern is absent is the identity,
so the guard is dropped. -/
def titleParts (title : String) : List (List Char) :=
  splitChars '.' (pyReplace ".C-".toList ".C.".toList title.toList)

/-- compare.py sortkey(title).  `none` models the uncaught
IndexError/ValueError (the MalformedTitle condition of the specification). -/
def sortkey (title : String) : Option String :=
  (sortkeyLoop (titleParts title) [0, 1, 2, 4]).map String.mk

/-! ## BeautifulSoup text extraction (compare.py lines 40-46)

compare.py builds old_text/new_text by concatenating the stripped_strings of
BeautifulSoup(markup, "html.parser"): the text fragments between markup tags,
each stripped of surrounding whitespace, empty fragments skipped.  The model
below covers markup made of text and well-delimited tags (a tag runs from a
Less-Than to the next Greater-Than and is discarded; an unterminated tag at
the end is discarded); entity references and comments are not modelled, and
no claim depends on them. -/

/-- Split a character stream into the text fragments lying between tags.
First argument: currently inside a tag; second: accumulator (reversed) for
the current text fragment. -/
def tagSegs : Bool → List Char → List Char → List (List Char)
  | false, acc, [] => [acc.reverse]
  | false, acc, '<' :: rest => acc.reverse :: tagSegs true [] rest
  | false, acc, c :: rest => tagSegs false (c :: acc) rest
  | true, _, [] => []
  | true, _, '>' :: rest => tagSegs false [] rest
  | true, _, _ :: rest => tagSegs true [] rest

/-- The concatenation of the stripped text fragments of a markup fragment
(what the stripped_strings loops of diff_text compute).  Fragments that strip
to nothing contribute the empty list, as in the Python code. -/
def strippedChars (s : List Char) : List Char :=
  ((tagSegs false [] s).map pyStripChars).flatten

/-! ## difflib.SequenceMatcher(None, a, b)

compare.py calls difflib.SequenceMatcher(None, old_text, new_text) and
consumes get_opcodes().  With isjunk=None the junk set bjunk is empty, so in
find_longest_match the two not-junk guards are vacuous and the two junk
extension loops never run; the autojunk heuristic still applies: when b has
at least 200 elements, elements occurring more than len(b)/100 + 1 times are
dropped from the index b2j, excluding them from the inner matching loop (but
not from the extension loops). -/

/-- Is a character "popular" in b (dropped from b2j by autojunk)? -/
def isPopular (b : List Char) (c : Char) : Bool :=
  decide (200 ≤ b.length) && decide (b.length / 100 + 1 < b.count c)

/-- May position i of a match against position j of b inside the inner loop
of find_longest_match, with window lower corner (alo, blo)?  This requires
j to be listed in b2j[a[i]]: the characters are equal and not popular. -/
def elig (a b : List Char) (alo blo i j : Nat) : Bool :=
  decide (alo ≤ i) && decide (blo ≤ j) && decide (i < a.length) &&
    decide (j < b.length) && (a.getD i ' ' == b.getD j ' ') &&
    !isPopular b (b.getD j ' ')

/-- The j2len chain of find_longest_match: the length of the longest
eligible matching run ending at a-position i and b-position j (difflib keeps
these lengths in the j2len dictionary, rebuilt row by row). -/
def chainLen (a b : List Char) (alo blo : Nat) : Nat → Nat → Nat
  | 0, j => if elig a b alo blo 0 j then 1 else 0
  | i + 1, 0 => if elig a b alo blo (i + 1) 0 then 1 else 0
  | i + 1, j + 1 =>
    if elig a b alo blo (i + 1) (j + 1) then chainLen a b alo blo i j + 1 else 0

/-- Inner loop of find_longest_match: scan the b-positions j of one row i in
ascending order, replacing the best match (besti, bestj, bestsize) whenever a
strictly longer chain ends at (i, j); difflib restricts j to b2j[a[i]], which
is equivalent since every other j has chain length 0. -/
def dpRowAux (a b : List Char) (alo blo : Nat) (i : Nat) :
    Nat → Nat → Nat × Nat × Nat → Nat × Nat × Nat
  | _, 0, best => best
  | j, cnt + 1, best =>
    dpRowAux a b alo blo i (j + 1) cnt
      (if best.2.2 < chainLen a b alo blo i j then
        (i + 1 - chainLen a b alo blo i j, j + 1 - chainLen a b alo blo i j,
          chainLen a b alo blo i j)
      else best)

/-- Outer loop of find_longest_match: rows i in ascending order. -/
def dpAllAux (a b : List Char) (alo blo bhi : Nat) :
    Nat → Nat → Nat × Nat × Nat → Nat × Nat × Nat
  | _, 0, best => best
  | i, cnt + 1, best =>
    dpAllAux a b alo blo bhi (i + 1) cnt (dpRowAux a b alo blo i blo (bhi - blo) best)

/-- The best match found by the dictionary pass of find_longest_match on the
window [alo, ahi) x [blo, bhi), before the extension loops. -/
def dpBest (a b : List Char) (alo ahi blo bhi : Nat) : Nat × Nat × Nat :=
  dpAllAux a b alo blo bhi alo (ahi - alo) (alo, blo, 0)

/-- First extension loop of find_longest_match: widen the match backward
while the preceding characters agree (the not-junk guard is vacuous). -/
def extendBack (a b : List Char) (alo blo : Nat) : Nat → Nat → Nat → Nat × Nat × Nat
  | 0, bestj, bestsize => (0, bestj, bestsize)
  | besti + 1, bestj, bestsize =>
    if alo < besti + 1 ∧ blo < bestj ∧ besti < a.length ∧ bestj - 1 < b.length ∧
        a.getD besti ' ' = b.getD (bestj - 1) ' ' then
      extendBack a b alo blo besti (bestj - 1) (bestsize + 1)
    else (besti + 1, bestj, bestsize)

/-- Second extension loop of find_longest_match: widen the match forward
while the following characters agree.  Fuel bounds the iteration count;
findLongestMatch passes ahi + 1, which exceeds the possible number of steps
since bestsize grows past ahi - besti. -/
def extFwdFuel (a b : List Char) (ahi bhi besti bestj : Nat) : Nat → Nat → Nat
  | 0, bestsize => bestsize
  | fuel + 1, bestsize =>
    if besti + bestsize < ahi ∧ bestj + bestsize < bhi ∧
        besti + bestsize < a.length ∧ bestj + bestsize < b.length ∧
        a.getD (besti + bestsize) ' ' = b.getD (bestj + bestsize) ' ' then
      extFwdFuel a b ahi bhi besti bestj fuel (bestsize + 1)
    else bestsize

/-- find_longest_match(alo, ahi, blo, bhi) with isjunk=None: dictionary pass,
backward extension, forward extension (the final two junk extension loops of
difflib never run because bjunk is empty). -/
def findLongestMatch (a b : List Char) (alo ahi blo bhi : Nat) : Nat × Nat × Nat :=
  let d := dpBest a b alo ahi blo bhi
  let e := extendBack a b alo blo d.1 d.2.1 d.2.2
  (e.1, e.2.1, extFwdFuel a b ahi bhi e.1 e.2.1 (ahi + 1) e.2.2)

/-- The divide-and-conquer pass of get_matching_blocks (difflib processes a
queue and sorts; recursing left of the pivot, emitting the pivot, then
recursing right produces the same sorted list, since every block found left
of the pivot starts strictly before it and every block right starts strictly
after).  The fuel argument bounds the recursion depth; the window measure
(ahi - alo) + (bhi - blo) shrinks strictly at every split, so the fuel passed
by getMatchingBlocks is never exhausted. -/
def matchingBlocksFuel (a b : List Char) :
    Nat → Nat → Nat → Nat → Nat → List (Nat × Nat × Nat)
  | 0, _, _, _, _ => []
  | fuel + 1, alo, ahi, blo, bhi =>
    let m := findLongestMatch a b alo ahi blo bhi
    if m.2.2 ≠ 0 then
      matchingBlocksFuel a b fuel alo m.1 blo m.2.1 ++
        m :: matchingBlocksFuel a b fuel (m.1 + m.2.2) ahi (m.2.1 + m.2.2) bhi
    else []

/-- The adjacent-block collapsing loop at the end of get_matching_blocks. -/
def mergeAdj : Nat → Nat → Nat → List (Nat × Nat × Nat) → List (Nat × Nat × Nat)
  | i1, j1, k1, [] => if k1 ≠ 0 then [(i1, j1, k1)] else []
  | i1, j1, k1, (i2, j2, k2) :: rest =>
    if i1 + k1 = i2 ∧ j1 + k1 = j2 then mergeAdj i1 j1 (k1 + k2) rest
    else if k1 ≠ 0 then (i1, j1, k1) :: mergeAdj i2 j2 k2 rest
    else mergeAdj i2 j2 k2 rest

/-- get_matching_blocks: maximal blocks, adjacent ones collapsed, with the
terminating sentinel (len(a), len(b), 0). -/
def getMatchingBlocks (a b : List Char) : List (Nat × Nat × Nat) :=
  mergeAdj 0 0 0
      (matchingBlocksFuel a b (a.length + b.length + 1) 0 a.length 0 b.length) ++
    [(a.length, b.length, 0)]

/-- The loop of get_opcodes: turn matching blocks into
(tag, a0, a1, b0, b1) opcodes, with tags as Python strings. -/
def opcodesAux : Nat → Nat → List (Nat × Nat × Nat) → List (String × Nat × Nat × Nat × Nat)
  | _, _, [] => []
  | i, j, (ai, bj, size) :: rest =>
    (let tag : String :=
      if i < ai ∧ j < bj then "replace"
      else if i < ai then "delete"
      else if j < bj then "insert"
      else ""
    if tag ≠ "" then [(tag, i, ai, j, bj)] else []) ++
    (if size ≠ 0 then [("equal", ai, ai + size, bj, bj + size)] else []) ++
    opcodesAux (ai + size) (bj + size) rest

/-- get_opcodes() of SequenceMatcher(None, a, b). -/
def getOpcodes (a b : List Char) : List (String × Nat × Nat × Nat × Nat) :=
  opcodesAux 0 0 (getMatchingBlocks a b)

/-! ## diff_text (compare.py lines 35-68) -/

/-- Python slice l[m:n] as a string. -/
def sliceS (l : List Char) (m n : Nat) : String :=
  String.mk ((l.drop m).take (n - m))

/-- The insert highlight marker wrapper of diff_text. -/
def spanInsert (s : String) : String :=
  "<span class=\"insert\">" ++ s ++ "</span>"

/-- The delete highlight marker wrapper of diff_text. -/
def spanDelete (s : String) : String :=
  "<span class=\"delete\">" ++ s ++ "</span>"

/-- The opcode loop of diff_text: render each opcode and accumulate the
text_changed flag.  The final else branch (`raise RuntimeError("unexpected
opcode")`) is `none`. -/
def renderOps (a b : List Char) : List (String × Nat × Nat × Nat × Nat) → Option (String × Bool)
  | [] => some ("", false)
  | (tag, a0, a1, b0, b1) :: rest =>
    if tag = "equal" then
      (renderOps a b rest).map (fun r => (sliceS a a0 a1 ++ r.1, r.2))
    else if tag = "insert" then
      (renderOps a b rest).map (fun r => (spanInsert (sliceS b b0 b1) ++ r.1, true))
    else if tag = "delete" then
      if ((a.drop a0).take (a1 - a0)).all isPySpace then
        renderOps a b rest
      else
        (renderOps a b rest).map (fun r => (spanDelete (sliceS a a0 a1) ++ r.1, true))
    else if tag = "replace" then
      (renderOps a b rest).map
        (fun r => (spanDelete (sliceS a a0 a1) ++ spanInsert (sliceS b b0 b1) ++ r.1, true))
    else none

/-- compare.py diff_text(old_markup, new_markup): extract and strip the text
of both sides, align them with SequenceMatcher, render the opcodes.  `none`
models the RuntimeError branch for an undefined opcode. -/
def diff_text (old_markup new_markup : String) : Option (String × Bool) :=
  renderOps (strippedChars old_markup.toList) (strippedChars new_markup.toList)
    (getOpcodes (strippedChars old_markup.toList) (strippedChars new_markup.toList))

/-- Does rendering this opcode emit a highlight marker?  insert and replace
always do; delete does unless the deleted span is pure whitespace (it is then
dropped); equal never does. -/
def emitsMarker (a : List Char) (op : String × Nat × Nat × Nat × Nat) : Bool :=
  op.1 == "insert" || op.1 == "replace" ||
    (op.1 == "delete" && !((a.drop op.2.1).take (op.2.2.1 - op.2.1)).all isPySpace)

/-- The concatenation of the equal segments of an opcode list (non-equal
opcodes contribute nothing). -/
def equalConcat (a : List Char) : List (String × Nat × Nat × Nat × Nat) → String
  | [] => ""
  | op :: rest =>
    (if op.1 = "equal" then sliceS a op.2.1 op.2.2.1 else "") ++ equalConcat a rest

/-! ## xpath selector helpers (compare.py lines 71-82)

Each helper returns the selector string for dialect version 1 or 2; for any
other version the Python function falls off the end and implicitly returns
None, modelled as `none`.  (In xpath_find_cid the Python parameter default
`cid=str` is a quirk with no effect: the call sites always pass an int,
formatted in decimal by the f-string.) -/

/-- Python str(n) for a nonnegative int. -/
def pyStr (n : Nat) : String := String.mk (natDigits n)

/-- The single-quote character used inside the xpath predicate. -/
def sq : String := String.singleton (Char.ofNat 39)

/-- compare.py xpath_findall_cid(version). -/
def xpath_findall_cid (version : Int) : Option String :=
  if version = 1 then some ".//paragraph[@CID]"
  else if version = 2 then some ".//paragraph[@cid]"
  else none

/-- compare.py xpath_find_cid(version, cid). -/
def xpath_find_cid (version : Int) (cid : Nat) : Option String :=
  if version = 1 then some (".//paragraph[@CID=" ++ sq ++ pyStr cid ++ sq ++ "]")
  else if version = 2 then some (".//paragraph[@cid=" ++ sq ++ pyStr cid ++ sq ++ "]")
  else none

/-! ## compare_files (compare.py lines 85-164), computational core

A parsed document is modelled as its list of paragraph elements in document
order, each element carrying the identifier (the CID attribute, already read
as an integer; the documents write it in canonical decimal) and the
dialect-mapped attributes.  Under that reading:

  * the loop over doc.findall(xpath_findall_cid(v)) collecting
    int(el.attrib[CID]) into a set becomes `cidList` (duplicates dropped);
  * doc.find(xpath_find_cid(v, cid)) - the first element whose identifier
    attribute equals the decimal of cid - becomes `findCid`;
  * the three classification loops become `controlsAdded`,
    `controlsRemoved` and `controlsChanged`.

A `none` result models an uncaught Python exception inside the loops
(MalformedTitle from sortkey, the RuntimeError branch of diff_text, or an
AttributeError were find to return no element). -/

/-- One paragraph element, with its dialect-mapped attributes and text. -/
structure Paragraph where
  cid : Nat
  title : String
  classifications : String
  compliances : String
  text : String
deriving DecidableEq

/-- One record of the change report (the dict built by compare_files). -/
structure Control where
  CID : Nat
  sortkey : String
  title : String
  classifications : String
  compliances : String
  text : String
deriving DecidableEq

/-- The identifier set of a document (old_cids / new_cids), as a
duplicate-free list. -/
def cidList (doc : List Paragraph) : List Nat :=
  (doc.map (fun p => p.cid)).dedup

/-- The identifier set of a document as a finite set (the specification
speaks of the key sets A and B of the two indexes). -/
def docCids (doc : List Paragraph) : Finset Nat := (cidList doc).toFinset

/-- doc.find(xpath_find_cid(version, cid)): first element with the given
identifier, if any. -/
def findCid (doc : List Paragraph) (cid : Nat) : Option Paragraph :=
  doc.find? (fun p => p.cid == cid)

/-- The body of the controls_added / controls_removed loops: build the
record for one identifier from the given document side. -/
def controlFor (doc : List Paragraph) (cid : Nat) : Option Control :=
  (findCid doc cid).bind (fun el =>
    (sortkey el.title).map (fun sk =>
      { CID := cid, sortkey := sk, title := el.title,
        classifications := el.classifications, compliances := el.compliances,
        text := el.text }))

/-- Run a record builder over a list of identifiers, propagating failure
(an exception aborts the whole comparison). -/
def controlsMap (f : Nat → Option Control) : List Nat → Option (List Control)
  | [] => some []
  | c :: cs =>
    match f c with
    | none => none
    | some x => (controlsMap f cs).map (fun xs => x :: xs)

/-- The controls_added loop: identifiers in new_cids - old_cids, records
drawn from the new document. -/
def controlsAdded (oldDoc newDoc : List Paragraph) : Option (List Control) :=
  controlsMap (controlFor newDoc)
    ((cidList newDoc).filter (fun c => !(cidList oldDoc).contains c))

/-- The controls_removed loop: identifiers in old_cids - new_cids, records
drawn from the old document. -/
def controlsRemoved (oldDoc newDoc : List Paragraph) : Option (List Control) :=
  controlsMap (controlFor oldDoc)
    ((cidList oldDoc).filter (fun c => !(cidList newDoc).contains c))

/-- The body of the controls_changed loop for one shared identifier:
`some none` is the continue branch (byte-identical text, or a diff whose
text_changed flag is false), `some (some ctrl)` is an emitted record, and
`none` is an uncaught exception. -/
def changedOne (oldDoc newDoc : List Paragraph) (cid : Nat) : Option (Option Control) :=
  match findCid oldDoc cid, findCid newDoc cid with
  | some old_el, some new_el =>
    if old_el.text = new_el.text then some none
    else
      match diff_text old_el.text new_el.text with
      | none => none
      | some (text, text_changed) =>
        if text_changed = false then some none
        else
          match sortkey new_el.title with
          | none => none
          | some sk =>
            some (some
              { CID := cid, sortkey := sk, title := new_el.title,
                classifications := new_el.classifications,
                compliances := new_el.compliances, text := text })
  | _, _ => none

/-- Run the changed-loop body over the shared identifiers, skipping the
continue cases and propagating failure. -/
def changedMap (f : Nat → Option (Option Control)) : List Nat → Option (List Control)
  | [] => some []
  | c :: cs =>
    match f c with
    | none => none
    | some none => changedMap f cs
    | some (some x) => (changedMap f cs).map (fun xs => x :: xs)

/-- The controls_changed loop: identifiers in old_cids & new_cids. -/
def controlsChanged (oldDoc newDoc : List Paragraph) : Option (List Control) :=
  changedMap (changedOne oldDoc newDoc)
    ((cidList oldDoc).filter (fun c => (cidList newDoc).contains c))

/-- The computational core of compare_files: the three record lists handed
to the report template (controls_added, controls_removed, controls_changed). -/
def compare_files (oldDoc newDoc : List Paragraph) :
    Option (List Control × List Control × List Control) :=
  match controlsAdded oldDoc newDoc, controlsRemoved oldDoc newDoc,
      controlsChanged oldDoc newDoc with
  | some a, some r, some c => some (a, r, c)
  | _, _, _ => none

/-- Concrete documents used by witnesses: the scenario of the specification
(old index with control 5, new index with controls 5 and 6, control 5
byte-identical). -/
def docOldEx : List Paragraph :=
  [⟨5, "1.1.1.C.01.", "All Classifications", "Must", "Agencies MUST comply."⟩]

/-- New-side document of the witness scenario. -/
def docNewEx : List Paragraph :=
  [⟨5, "1.1.1.C.01.", "All Classifications", "Must", "Agencies MUST comply."⟩,
   ⟨6, "1.1.2.C.01.", "All Classifications", "Must", "New control."⟩]

/-! # Theorems

## The sortkey loop -/

/-- The sortkey loop fails exactly when one of the requested positions is
missing or fails to parse as a Python int. -/
theorem sortkeyLoop_none_iff (parts : List (List Char)) :
    ∀ xs : List Nat,
      (sortkeyLoop parts xs = none ↔ ∃ x ∈ xs, parts[x]?.bind pyInt? = none)
  | [] => by simp [sortkeyLoop]
  | x :: xs => by
    have ih := sortkeyLoop_none_iff parts xs
    cases hp : parts[x]? with
    | none =>
      simp only [sortkeyLoop, hp]
      constructor
      · intro _
        exact ⟨x, List.mem_cons_self x xs, by simp [hp]⟩
      · intro _
        trivial
    | some seg =>
      cases hq : pyInt? seg with
      | none =>
        simp only [sortkeyLoop, hp, hq]
        constructor
        · intro _
          exact ⟨x, List.mem_cons_self x xs, by simp [hp, hq]⟩
        · intro _
          trivial
      | some n =>
        simp only [sortkeyLoop, hp, hq]
        rw [Option.map_eq_none', ih]
        constructor
        · rintro ⟨y, hy, hnone⟩
          exact ⟨y, List.mem_cons_of_mem x hy, hnone⟩
        · rintro ⟨y, hy, hnone⟩
          rcases List.mem_cons.mp hy with rfl | hy'
          · rw [hp] at hnone
            simp [hq] at hnone
          · exact ⟨y, hy', hnone⟩

/-- sortkey fails exactly when one of positions 0, 1, 2, 4 of the normalized
title is missing or fails to parse as a Python int. -/
theorem sortkey_none_iff (title : String) :
    sortkey title = none ↔
      ∃ x ∈ ([0, 1, 2, 4] : List Nat), (titleParts title)[x]?.bind pyInt? = none := by
  unfold sortkey
  rw [Option.map_eq_none']
  exact sortkeyLoop_none_iff _ _

/-- One successful step of the sortkey loop. -/
theorem sortkeyLoop_cons_some (parts : List (List Char)) (x : Nat) (xs : List Nat)
    (seg : List Char) (n : Int) (hp : parts[x]? = some seg) (hq : pyInt? seg = some n) :
    sortkeyLoop parts (x :: xs) =
      (sortkeyLoop parts xs).map (fun rest => format03d n ++ rest) := by
  simp only [sortkeyLoop, hp, hq]

/-! ## Digit counting for format03d -/

/-- The character of a decimal digit is an ASCII digit. -/
theorem digitChar_isDigit (d : Nat) (h : d < 10) :
    (Char.ofNat (48 + d)).isDigit = true := by
  interval_cases d <;> decide

/-- All characters produced by natDigitsFuel are ASCII digits. -/
theorem natDigitsFuel_digits :
    ∀ fuel n, n < fuel → (natDigitsFuel fuel n).all Char.isDigit = true := by
  intro fuel
  induction fuel with
  | zero => omega
  | succ fuel ih =>
    intro n hn
    rw [natDigitsFuel]
    by_cases h : n < 10
    · rw [if_pos h]
      simp [digitChar_isDigit n h]
    · rw [if_neg h]
      rw [List.all_append]
      have hdiv : n / 10 < fuel := by
        have := Nat.div_lt_self (show 0 < n by omega) (show 1 < 10 by omega)
        omega
      rw [ih (n / 10) hdiv]
      simp [digitChar_isDigit (n % 10) (Nat.mod_lt _ (by omega))]

/-- natDigitsFuel writes a number below 10 ^ k (k positive) in at most k
digits. -/
theorem natDigitsFuel_len :
    ∀ fuel n k, n < fuel → 1 ≤ k → n < 10 ^ k → (natDigitsFuel fuel n).length ≤ k := by
  intro fuel
  induction fuel with
  | zero => omega
  | succ fuel ih =>
    intro n k hn hk hnk
    rw [natDigitsFuel]
    by_cases h : n < 10
    · rw [if_pos h]
      simpa using hk
    · rw [if_neg h]
      rw [List.length_append]
      have hk2 : 2 ≤ k := by
        by_contra hlt
        have : k = 1 := by omega
        subst this
        simp at hnk
        omega
      have hdiv : n / 10 < fuel := by
        have := Nat.div_lt_self (show 0 < n by omega) (show 1 < 10 by omega)
        omega
      have hdivk : n / 10 < 10 ^ (k - 1) := by
        rw [Nat.div_lt_iff_lt_mul (show 0 < 10 by omega)]
        have : 10 ^ (k - 1) * 10 = 10 ^ k := by
          rw [← pow_succ]
          congr 1
          omega
        omega
      have := ih (n / 10) (k - 1) hdiv (by omega) hdivk
      simp only [List.length_cons, List.length_nil]
      omega

/-- For 0 ≤ n ≤ 999, "{:03d}" produces exactly 3 characters. -/
theorem format03d_length (n : Int) (h0 : 0 ≤ n) (h : n ≤ 999) :
    (format03d n).length = 3 := by
  rw [format03d, if_neg (by omega)]
  rw [zfillChars, List.length_append, List.length_replicate]
  have : (natDigits n.toNat).length ≤ 3 := by
    apply natDigitsFuel_len _ _ 3 (by omega) (by omega)
    have : n.toNat ≤ 999 := by omega
    omega
  omega

/-- For 0 ≤ n, "{:03d}" produces only ASCII digits. -/
theorem format03d_digits (n : Int) (h0 : 0 ≤ n) :
    (format03d n).all Char.isDigit = true := by
  rw [format03d, if_neg (by omega)]
  rw [zfillChars, List.all_append, Bool.and_eq_true]
  constructor
  · rw [List.all_eq_true]
    intro c hc
    rw [List.eq_of_mem_replicate hc]
    decide
  · exact natDigitsFuel_digits _ n.toNat (by omega)

/-! ## Claim C2 -/

/-- Claim C2 (confirmed).  For every well-formed title - one whose
normalized segments at positions 0, 1, 2 and 4 parse as integers between 0
and 999, so that zero-padding to 3 digits is possible - sortkey parses those
segments, zero-pads each to 3 digits, and concatenates them in that order
into a 12-character digit string; in particular
sortkey("1.1.65.C.01.") = "001001065001",
sortkey("1.1.65.C-01.") = "001001065001", and
sortkey("2.3.4.C.10.") = "002003004010". -/
theorem sortkey_wellformed_c2 :
    (∀ (title : String) (n0 n1 n2 n4 : Int),
      (titleParts title)[0]?.bind pyInt? = some n0 →
      (titleParts title)[1]?.bind pyInt? = some n1 →
      (titleParts title)[2]?.bind pyInt? = some n2 →
      (titleParts title)[4]?.bind pyInt? = some n4 →
      0 ≤ n0 → n0 ≤ 999 → 0 ≤ n1 → n1 ≤ 999 → 0 ≤ n2 → n2 ≤ 999 →
      0 ≤ n4 → n4 ≤ 999 →
      sortkey title =
          some (String.mk (format03d n0 ++ format03d n1 ++ format03d n2 ++ format03d n4)) ∧
        (format03d n0 ++ format03d n1 ++ format03d n2 ++ format03d n4).length = 12 ∧
        (format03d n0 ++ format03d n1 ++ format03d n2 ++ format03d n4).all
          Char.isDigit = true) ∧
    sortkey "1.1.65.C.01." = some "001001065001" ∧
    sortkey "1.1.65.C-01." = some "001001065001" ∧
    sortkey "2.3.4.C.10." = some "002003004010" := by
  refine ⟨?_, by decide, by decide, by decide⟩
  intro title n0 n1 n2 n4 h0 h1 h2 h4 h0a h0b h1a h1b h2a h2b h4a h4b
  obtain ⟨s0, hp0, hq0⟩ := Option.bind_eq_some.mp h0
  obtain ⟨s1, hp1, hq1⟩ := Option.bind_eq_some.mp h1
  obtain ⟨s2, hp2, hq2⟩ := Option.bind_eq_some.mp h2
  obtain ⟨s4, hp4, hq4⟩ := Option.bind_eq_some.mp h4
  refine ⟨?_, ?_, ?_⟩
  · unfold sortkey
    rw [sortkeyLoop_cons_some _ _ _ _ _ hp0 hq0,
      sortkeyLoop_cons_some _ _ _ _ _ hp1 hq1,
      sortkeyLoop_cons_some _ _ _ _ _ hp2 hq2,
      sortkeyLoop_cons_some _ _ _ _ _ hp4 hq4]
    simp [sortkeyLoop]
  · rw [List.length_append, List.length_append, List.length_append,
      format03d_length n0 h0a h0b, format03d_length n1 h1a h1b,
      format03d_length n2 h2a h2b, format03d_length n4 h4a h4b]
  · rw [List.all_append, List.all_append, List.all_append]
    rw [format03d_digits n0 h0a, format03d_digits n1 h1a,
      format03d_digits n2 h2a, format03d_digits n4 h4a]
    rfl

/-- Witness for C2: the theorem applied to the title "1.1.65.C.01.". -/
theorem sortkey_wellformed_c2_witness :
    sortkey "1.1.65.C.01." =
        some (String.mk (format03d 1 ++ format03d 1 ++ format03d 65 ++ format03d 1)) ∧
      (format03d 1 ++ format03d 1 ++ format03d 65 ++ format03d 1).length = 12 ∧
      (format03d 1 ++ format03d 1 ++ format03d 65 ++ format03d 1).all
        Char.isDigit = true :=
  sortkey_wellformed_c2.1 "1.1.65.C.01." 1 1 65 1 (by decide) (by decide) (by decide)
    (by decide) (by decide) (by decide) (by decide) (by decide) (by decide) (by decide)
    (by decide) (by decide)

/-! ## Claim C4 -/

/-- Counterexample to C4 as stated: the normalization is not general over
category letters.  For the letter B the hyphen dialect form is not rewritten
(only the specific pattern ".C-" is), so the two dialect forms of the same
title produce different sort keys - the hyphen form even fails. -/
theorem sortkey_dialect_c4_counterexample :
    sortkey "1.1.65.B-01." = none ∧
      sortkey "1.1.65.B.01." = some "001001065001" ∧
      sortkey "1.1.65.B-01." ≠ sortkey "1.1.65.B.01." := by
  refine ⟨by decide, by decide, by decide⟩

/-- Claim C4 (amended).  Dialect normalization rewrites exactly the pattern
".C-" (category letter C) to ".C." before splitting: whenever that rewrite
turns A ++ ".C-" ++ B into A ++ ".C." ++ B and leaves A ++ ".C." ++ B fixed
(in particular whenever ".C-" occurs exactly once), the two dialect forms of
the title produce the same sort key; concretely both "1.1.65.C-01." and
"1.1.65.C.01." give "001001065001". -/
theorem sortkey_dialect_c4 :
    (∀ A B : String,
      pyReplace ".C-".toList ".C.".toList (A ++ ".C-" ++ B).toList =
          (A ++ ".C." ++ B).toList →
      pyReplace ".C-".toList ".C.".toList (A ++ ".C." ++ B).toList =
          (A ++ ".C." ++ B).toList →
      sortkey (A ++ ".C-" ++ B) = sortkey (A ++ ".C." ++ B)) ∧
    sortkey "1.1.65.C-01." = some "001001065001" ∧
    sortkey "1.1.65.C.01." = some "001001065001" := by
  refine ⟨?_, by decide, by decide⟩
  intro A B h1 h2
  unfold sortkey titleParts
  rw [h1, h2]

/-- Witness for C4: the amended theorem applied to A = "1.1.65",
B = "01.". -/
theorem sortkey_dialect_c4_witness :
    sortkey ("1.1.65" ++ ".C-" ++ "01.") = sortkey ("1.1.65" ++ ".C." ++ "01.") :=
  sortkey_dialect_c4.1 "1.1.65" "01." (by decide) (by decide)

/-! ## Claim C7 -/

/-- Counterexample to C7 as stated: sortkey is claimed to fail exactly when
a required segment does not parse as a non-negative integer, but the title
"-1.1.2.C.3." - whose first segment parses only as the negative integer -1 -
succeeds, because Python int() accepts a sign. -/
theorem sortkey_failure_c7_counterexample :
    ¬ (sortkey "-1.1.2.C.3." = none ↔
        ((titleParts "-1.1.2.C.3.").length < 5 ∨
          ∃ x ∈ ([0, 1, 2, 4] : List Nat),
            ((titleParts "-1.1.2.C.3.")[x]?.bind pyInt?).any
              (fun n => decide (0 ≤ n)) = false)) := by
  decide

/-- Claim C7 (amended).  sortkey fails with MalformedTitle exactly when,
after dialect normalization, the title has fewer than 5 dot-separated
segments or one of the segments at positions 0, 1, 2, 4 does not parse as an
integer in Python int() syntax (which permits a sign); on every input
satisfying the stated precondition (at least 5 segments, required segments
parsing as non-negative integers) it succeeds. -/
theorem sortkey_failure_c7 (title : String) :
    (sortkey title = none ↔
      ((titleParts title).length < 5 ∨
        ∃ x ∈ ([0, 1, 2, 4] : List Nat), (titleParts title)[x]?.bind pyInt? = none)) ∧
    (5 ≤ (titleParts title).length →
      (∀ x ∈ ([0, 1, 2, 4] : List Nat),
        ∃ n : Int, (titleParts title)[x]?.bind pyInt? = some n ∧ 0 ≤ n) →
      ∃ s, sortkey title = some s) := by
  constructor
  · rw [sortkey_none_iff]
    constructor
    · intro h
      exact Or.inr h
    · rintro (hlen | h)
      · refine ⟨4, by decide, ?_⟩
        rw [List.getElem?_eq_none (by omega)]
        rfl
      · exact h
  · intro hlen hall
    rcases hs : sortkey title with _ | s
    · rw [sortkey_none_iff] at hs
      obtain ⟨x, hx, hnone⟩ := hs
      obtain ⟨n, hsome, _⟩ := hall x hx
      rw [hsome] at hnone
      exact absurd hnone (by simp)
    · exact ⟨s, rfl⟩

/-- Witness for C7: the amended theorem applied to "1.1.65.C.01.". -/
theorem sortkey_failure_c7_witness :
    ∃ s, sortkey "1.1.65.C.01." = some s :=
  (sortkey_failure_c7 "1.1.65.C.01.").2 (by decide) (by decide)

/-! ## Claim C10 -/

/-- Claim C10 (confirmed).  For every dialect version outside 1 and 2, both
selector helpers return no selector (None) instead of raising: an invalid
dialect is only detected later, by the caller that consumes the selector. -/
theorem xpath_invalid_version_c10 (version : Int)
    (h1 : version ≠ 1) (h2 : version ≠ 2) :
    xpath_findall_cid version = none ∧ ∀ cid : Nat, xpath_find_cid version cid = none := by
  constructor
  · rw [xpath_findall_cid, if_neg h1, if_neg h2]
  · intro cid
    rw [xpath_find_cid, if_neg h1, if_neg h2]

/-- Witness for C10: version 3 yields no selector. -/
theorem xpath_invalid_version_c10_witness :
    xpath_findall_cid 3 = none ∧ xpath_find_cid 3 131 = none :=
  ⟨(xpath_invalid_version_c10 3 (by decide) (by decide)).1,
    (xpath_invalid_version_c10 3 (by decide) (by decide)).2 131⟩

/-! ## The opcode tags and the rendering loop -/

/-- Every opcode produced by the get_opcodes loop carries one of the four
defined tags. -/
theorem opcodesAux_tags :
    ∀ (blocks : List (Nat × Nat × Nat)) (i j : Nat) op, op ∈ opcodesAux i j blocks →
      op.1 = "equal" ∨ op.1 = "insert" ∨ op.1 = "delete" ∨ op.1 = "replace"
  | [], i, j, op => by simp [opcodesAux]
  | (ai, bj, size) :: rest, i, j, op => by
    intro h
    simp only [opcodesAux, List.mem_append] at h
    rcases h with (h | h) | h
    · split_ifs at h <;> simp_all
    · split_ifs at h <;> simp_all
    · exact opcodesAux_tags rest _ _ op h

/-- The rendering loop succeeds on every opcode list whose tags are all
defined. -/
theorem renderOps_isSome (a b : List Char) :
    ∀ ops : List (String × Nat × Nat × Nat × Nat),
      (∀ op ∈ ops, op.1 = "equal" ∨ op.1 = "insert" ∨ op.1 = "delete" ∨ op.1 = "replace") →
      (renderOps a b ops).isSome = true
  | [] => by
    intro _
    rfl
  | (tag, a0, a1, b0, b1) :: rest => by
    intro h
    have hrest :=
      renderOps_isSome a b rest (fun op hop => h op (List.mem_cons_of_mem _ hop))
    obtain ⟨⟨out, ch⟩, hr⟩ := Option.isSome_iff_exists.mp hrest
    have htag := h (tag, a0, a1, b0, b1) (List.mem_cons_self _ _)
    simp only at htag
    simp only [renderOps]
    rcases htag with rfl | rfl | rfl | rfl
    · rw [if_pos rfl, hr]
      rfl
    · rw [if_neg (by decide), if_pos rfl, hr]
      rfl
    · rw [if_neg (by decide), if_neg (by decide), if_pos rfl]
      by_cases hws : ((a.drop a0).take (a1 - a0)).all isPySpace = true
      · rw [if_pos hws]
        exact hrest
      · rw [if_neg hws, hr]
        rfl
    · rw [if_neg (by decide), if_neg (by decide), if_neg (by decide), if_pos rfl, hr]
      rfl

/-! ## Claim C8 -/

/-- Claim C8 (confirmed).  For every pair of inputs the sequence alignment
produces only opcodes from the defined set (equal, insert, delete, replace),
so the internal-error branch of the differ is unreachable and diff_text
raises no error: it always returns a result. -/
theorem diff_no_internal_error_c8 (old_markup new_markup : String) :
    (∀ op ∈ getOpcodes (strippedChars old_markup.toList) (strippedChars new_markup.toList),
      op.1 = "equal" ∨ op.1 = "insert" ∨ op.1 = "delete" ∨ op.1 = "replace") ∧
    (diff_text old_markup new_markup).isSome = true := by
  constructor
  · exact opcodesAux_tags _ 0 0
  · exact renderOps_isSome _ _ _ (opcodesAux_tags _ 0 0)

/-- Witness for C8 at a concrete input pair. -/
theorem diff_no_internal_error_c8_witness :
    (diff_text "a" "b").isSome = true :=
  (diff_no_internal_error_c8 "a" "b").2

/-! ## Claim C9 -/

/-- The rendering loop sets text_changed exactly when some opcode emits a
marker, and when nothing did, the output is the concatenation of the equal
segments. -/
theorem renderOps_changed (a b : List Char) :
    ∀ (ops : List (String × Nat × Nat × Nat × Nat)) out ch,
      renderOps a b ops = some (out, ch) →
      ch = ops.any (emitsMarker a) ∧ (ch = false → out = equalConcat a ops)
  | [], out, ch => by
    intro h
    simp only [renderOps, Option.some_inj, Prod.mk.injEq] at h
    obtain ⟨rfl, rfl⟩ := h
    exact ⟨rfl, fun _ => rfl⟩
  | (tag, a0, a1, b0, b1) :: rest, out, ch => by
    intro h
    simp only [renderOps] at h
    by_cases he : tag = "equal"
    · subst he
      rw [if_pos rfl] at h
      obtain ⟨⟨out', ch'⟩, hr, heq⟩ := Option.map_eq_some'.mp h
      obtain ⟨hout, hch⟩ := Prod.mk.injEq .. ▸ heq
      obtain ⟨hany, hconcat⟩ := renderOps_changed a b rest out' ch' hr
      subst hout hch
      constructor
      · simp [List.any_cons, emitsMarker, hany]
      · intro hfalse
        rw [hconcat hfalse]
        simp [equalConcat]
    · rw [if_neg he] at h
      by_cases hi : tag = "insert"
      · subst hi
        rw [if_pos rfl] at h
        obtain ⟨⟨out', ch'⟩, hr, heq⟩ := Option.map_eq_some'.mp h
        obtain ⟨hout, hch⟩ := Prod.mk.injEq .. ▸ heq
        subst hout hch
        constructor
        · simp [List.any_cons, emitsMarker]
        · intro hfalse
          exact absurd hfalse (by simp)
      · rw [if_neg hi] at h
        by_cases hd : tag = "delete"
        · subst hd
          rw [if_pos rfl] at h
          by_cases hws : ((a.drop a0).take (a1 - a0)).all isPySpace = true
          · rw [if_pos hws] at h
            obtain ⟨hany, hconcat⟩ := renderOps_changed a b rest out ch h
            constructor
            · simp [List.any_cons, emitsMarker, hws, hany]
            · intro hfalse
              rw [hconcat hfalse]
              simp [equalConcat]
          · rw [if_neg hws] at h
            obtain ⟨⟨out', ch'⟩, hr, heq⟩ := Option.map_eq_some'.mp h
            obtain ⟨hout, hch⟩ := Prod.mk.injEq .. ▸ heq
            subst hout hch
            constructor
            · simp [List.any_cons, emitsMarker, Bool.eq_false_iff.mpr hws]
            · intro hfalse
              exact absurd hfalse (by simp)
        · rw [if_neg hd] at h
          by_cases hrp : tag = "replace"
          · subst hrp
            rw [if_pos rfl] at h
            obtain ⟨⟨out', ch'⟩, hr, heq⟩ := Option.map_eq_some'.mp h
            obtain ⟨hout, hch⟩ := Prod.mk.injEq .. ▸ heq
            subst hout hch
            constructor
            · simp [List.any_cons, emitsMarker]
            · intro hfalse
              exact absurd hfalse (by simp)
          · rw [if_neg hrp] at h
            exact absurd h (by simp)

/-- Claim C9 (confirmed).  For every pair of inputs, the changed flag of the
differ is true exactly when the rendering of the opcodes emitted at least one
insert or delete highlight marker (insert and replace opcodes always emit
one; a delete opcode emits one unless its span is pure whitespace); and when
changed is false the output is exactly the concatenation of the equal
segments, with no markers added. -/
theorem diff_changed_iff_marker_c9 (old_markup new_markup : String) (out : String)
    (ch : Bool) (h : diff_text old_markup new_markup = some (out, ch)) :
    (ch = true ↔
      0 < ((getOpcodes (strippedChars old_markup.toList)
          (strippedChars new_markup.toList)).countP
        (emitsMarker (strippedChars old_markup.toList)))) ∧
    (ch = false →
      out = equalConcat (strippedChars old_markup.toList)
        (getOpcodes (strippedChars old_markup.toList)
          (strippedChars new_markup.toList))) := by
  obtain ⟨hany, hconcat⟩ := renderOps_changed _ _ _ out ch h
  refine ⟨?_, hconcat⟩
  rw [hany, List.countP_pos_iff, List.any_eq_true]

/-- Witness for C9 at a concrete input pair. -/
theorem diff_changed_iff_marker_c9_witness :
    (true = true ↔
      0 < ((getOpcodes (strippedChars "a".toList) (strippedChars "b".toList)).countP
        (emitsMarker (strippedChars "a".toList)))) ∧
    (true = false →
      "<span class=\"delete\">a</span><span class=\"insert\">b</span>" =
        equalConcat (strippedChars "a".toList)
          (getOpcodes (strippedChars "a".toList) (strippedChars "b".toList))) :=
  diff_changed_iff_marker_c9 "a" "b"
    "<span class=\"delete\">a</span><span class=\"insert\">b</span>" true (by decide)

/-! ## Claim C3 -/

/-- Counterexample to C3 as stated: diff("hello world", "hello  world") does
not yield changed = false.  The extra space on the new side is an insert
opcode, and insertions always set the changed flag - even pure-whitespace
ones (only deletions get the whitespace exemption). -/
theorem diff_whitespace_c3_counterexample :
    (diff_text "hello world" "hello  world").map (fun r => r.2) = some true := by
  decide

/-- Claim C3 (amended).  diff("hello world", "hello  world") yields
changed = true, because the extra space is an insertion and insertions always
mark changed; in the reverse direction diff("hello  world", "hello world")
yields changed = false and the whitespace deletion is dropped from the
output.  More generally, a diff whose only non-equal opcodes are deletions of
pure-whitespace spans yields changed = false and drops those spans (the
output is the concatenation of the equal segments), while any insertion of a
non-whitespace word yields changed = true. -/
theorem diff_whitespace_c3 :
    (diff_text "hello world" "hello  world" =
      some ("hello <span class=\"insert\"> </span>world", true)) ∧
    (diff_text "hello  world" "hello world" = some ("hello world", false)) ∧
    (∀ (old_markup new_markup out : String) (ch : Bool),
      diff_text old_markup new_markup = some (out, ch) →
      (∀ op ∈ getOpcodes (strippedChars old_markup.toList)
          (strippedChars new_markup.toList),
        op.1 = "equal" ∨
          (op.1 = "delete" ∧
            (((strippedChars old_markup.toList).drop op.2.1).take
              (op.2.2.1 - op.2.1)).all isPySpace = true)) →
      ch = false ∧
        out = equalConcat (strippedChars old_markup.toList)
          (getOpcodes (strippedChars old_markup.toList)
            (strippedChars new_markup.toList))) ∧
    (∀ (old_markup new_markup out : String) (ch : Bool),
      diff_text old_markup new_markup = some (out, ch) →
      (∃ op ∈ getOpcodes (strippedChars old_markup.toList)
          (strippedChars new_markup.toList),
        op.1 = "insert" ∧
          (((strippedChars new_markup.toList).drop op.2.2.2.1).take
            (op.2.2.2.2 - op.2.2.2.1)).all isPySpace = false) →
      ch = true) := by
  refine ⟨by decide, by decide, ?_, ?_⟩
  · intro old_markup new_markup out ch h hops
    obtain ⟨hany, hconcat⟩ := renderOps_changed _ _ _ out ch h
    have hfalse : ch = false := by
      rw [hany, List.any_eq_false]
      intro op hop
      rcases hops op hop with he | ⟨hd, hws⟩
      · simp [emitsMarker, he]
      · simp [emitsMarker, hd, hws]
        exact fun x hx => List.all_eq_true.mp hws x hx
    exact ⟨hfalse, hconcat hfalse⟩
  · intro old_markup new_markup out ch h hex
    obtain ⟨hany, _⟩ := renderOps_changed _ _ _ out ch h
    obtain ⟨op, hop, hins, _⟩ := hex
    rw [hany, List.any_eq_true]
    exact ⟨op, hop, by simp [emitsMarker, hins]⟩

/-- Witness for C3: the whitespace-deletion conjunct applied to the pair
("a ", "a"), whose only opcode is an equal span. -/
theorem diff_whitespace_c3_witness :
    false = false ∧
      "a" = equalConcat (strippedChars "a ".toList)
        (getOpcodes (strippedChars "a ".toList) (strippedChars "a".toList)) :=
  diff_whitespace_c3.2.2.1 "a " "a" "a" false (by decide) (by decide)

/-! ## Aligning a sequence with itself

The following lemmas show that find_longest_match, applied to the full
window of a sequence against itself, returns the full-window match: the
dictionary pass only ever records diagonal candidates (an off-diagonal match
of two copies of the same text is never strictly longer than the diagonal
match already scanned), and the extension loops then widen any diagonal
match to the whole window. -/

/-- Unpack eligibility of a position pair of a self-comparison. -/
theorem elig_eq_char (t : List Char) (i j : Nat) (h : elig t t 0 0 i j = true) :
    i < t.length ∧ j < t.length ∧ t.getD i ' ' = t.getD j ' ' ∧
      isPopular t (t.getD j ' ') = false := by
  unfold elig at h
  simp only [Bool.and_eq_true, decide_eq_true_eq, beq_iff_eq, Bool.not_eq_true'] at h
  tauto

/-- An eligible pair of a self-comparison makes both of its diagonal
positions eligible (popularity is a property of the character value). -/
theorem elig_diag_of (t : List Char) (i j : Nat) (h : elig t t 0 0 i j = true) :
    elig t t 0 0 i i = true ∧ elig t t 0 0 j j = true := by
  obtain ⟨hi, hj, hc, hp⟩ := elig_eq_char t i j h
  have hp2 : isPopular t (t.getD i ' ') = false := by
    rw [hc]
    exact hp
  rw [List.getD_eq_getElem t ' ' hi] at hp2
  rw [List.getD_eq_getElem t ' ' hj] at hp
  constructor <;> unfold elig <;> simp [hi, hj, hp, hp2]

/-- A diagonal chain of a self-comparison has length at least 1 as soon as
its endpoint is eligible. -/
theorem chainLen_diag_pos (t : List Char) (j : Nat) (h : elig t t 0 0 j j = true) :
    1 ≤ chainLen t t 0 0 j j := by
  cases j with
  | zero =>
    simp only [chainLen]
    rw [if_pos h]
  | succ j =>
    simp only [chainLen]
    rw [if_pos h]
    omega

/-- In a self-comparison, no chain ending in row i beats the diagonal chain
ending in row i. -/
theorem chainLen_le_left (t : List Char) :
    ∀ i j, chainLen t t 0 0 i j ≤ chainLen t t 0 0 i i
  | 0, j => by
    by_cases h : elig t t 0 0 0 j = true
    · have h2 := (elig_diag_of t 0 j h).1
      simp only [chainLen]
      rw [if_pos h, if_pos h2]
    · simp only [chainLen]
      rw [if_neg h]
      exact Nat.zero_le _
  | i + 1, 0 => by
    by_cases h : elig t t 0 0 (i + 1) 0 = true
    · have h2 := (elig_diag_of t (i + 1) 0 h).1
      simp only [chainLen]
      rw [if_pos h, if_pos h2]
      omega
    · simp only [chainLen]
      rw [if_neg h]
      exact Nat.zero_le _
  | i + 1, j + 1 => by
    by_cases h : elig t t 0 0 (i + 1) (j + 1) = true
    · have h2 := (elig_diag_of t (i + 1) (j + 1) h).1
      simp only [chainLen]
      rw [if_pos h, if_pos h2]
      have := chainLen_le_left t i j
      omega
    · simp only [chainLen]
      rw [if_neg h]
      exact Nat.zero_le _

/-- In a self-comparison, no chain ending in column j beats the diagonal
chain ending in column j. -/
theorem chainLen_le_right (t : List Char) :
    ∀ i j, chainLen t t 0 0 i j ≤ chainLen t t 0 0 j j
  | 0, j => by
    by_cases h : elig t t 0 0 0 j = true
    · have h2 := (elig_diag_of t 0 j h).2
      have h3 := chainLen_diag_pos t j h2
      simp only [chainLen]
      rw [if_pos h]
      simpa using h3
    · simp only [chainLen]
      rw [if_neg h]
      exact Nat.zero_le _
  | i + 1, 0 => by
    by_cases h : elig t t 0 0 (i + 1) 0 = true
    · have h2 := (elig_diag_of t (i + 1) 0 h).2
      simp only [chainLen]
      rw [if_pos h, if_pos h2]
    · simp only [chainLen]
      rw [if_neg h]
      exact Nat.zero_le _
  | i + 1, j + 1 => by
    by_cases h : elig t t 0 0 (i + 1) (j + 1) = true
    · have h2 := (elig_diag_of t (i + 1) (j + 1) h).2
      simp only [chainLen]
      rw [if_pos h, if_pos h2]
      have := chainLen_le_right t i j
      omega
    · simp only [chainLen]
      rw [if_neg h]
      exact Nat.zero_le _

/-- A chain ending in row i has length at most i + 1. -/
theorem chainLen_le_row (a b : List Char) (alo blo : Nat) :
    ∀ i j, chainLen a b alo blo i j ≤ i + 1
  | 0, j => by
    simp only [chainLen]
    split <;> omega
  | i + 1, 0 => by
    simp only [chainLen]
    split <;> omega
  | i + 1, j + 1 => by
    simp only [chainLen]
    split
    · have := chainLen_le_row a b alo blo i j
      omega
    · omega

/-- Row invariant of the dictionary pass of a self-comparison: scanning one
row preserves a diagonal best match whose extent stays inside the sequence,
never decreases the best size, keeps it above every earlier diagonal chain,
and ends above the diagonal chain of the current row once its column has been
scanned. -/
theorem dpRow_inv (t : List Char) (i : Nat) (hi : i < t.length) :
    ∀ (cnt j : Nat) (best : Nat × Nat × Nat),
      best.1 = best.2.1 → best.1 + best.2.2 ≤ t.length →
      (∀ r, r < i → chainLen t t 0 0 r r ≤ best.2.2) →
      (i < j → chainLen t t 0 0 i i ≤ best.2.2) →
      (dpRowAux t t 0 0 i j cnt best).1 = (dpRowAux t t 0 0 i j cnt best).2.1 ∧
        (dpRowAux t t 0 0 i j cnt best).1 + (dpRowAux t t 0 0 i j cnt best).2.2 ≤
          t.length ∧
        best.2.2 ≤ (dpRowAux t t 0 0 i j cnt best).2.2 ∧
        (∀ r, r < i → chainLen t t 0 0 r r ≤ (dpRowAux t t 0 0 i j cnt best).2.2) ∧
        (i < j + cnt → chainLen t t 0 0 i i ≤ (dpRowAux t t 0 0 i j cnt best).2.2)
  | 0, j, best => by
    intro hdiag hbound hrows hcol
    refine ⟨hdiag, hbound, le_refl _, hrows, ?_⟩
    intro hij
    exact hcol (by omega)
  | cnt + 1, j, best => by
    intro hdiag hbound hrows hcol
    simp only [dpRowAux]
    by_cases hupd : best.2.2 < chainLen t t 0 0 i j
    · rw [if_pos hupd]
      have hij : i = j := by
        by_contra hne
        rcases Nat.lt_or_ge j i with hji | hij2
        · have h1 : chainLen t t 0 0 i j ≤ chainLen t t 0 0 j j :=
            chainLen_le_right t i j
          have h2 := hrows j hji
          omega
        · have hij3 : i < j := by omega
          have h1 : chainLen t t 0 0 i j ≤ chainLen t t 0 0 i i :=
            chainLen_le_left t i j
          have h2 := hcol hij3
          omega
      subst hij
      have hk_le : chainLen t t 0 0 i i ≤ i + 1 := chainLen_le_row t t 0 0 i i
      obtain ⟨rdiag, rbound, rle, rrows, rcol⟩ :=
        dpRow_inv t i hi cnt (i + 1)
          (i + 1 - chainLen t t 0 0 i i, i + 1 - chainLen t t 0 0 i i,
            chainLen t t 0 0 i i)
          rfl
          (show i + 1 - chainLen t t 0 0 i i + chainLen t t 0 0 i i ≤ t.length by omega)
          (by
            intro r hr
            have := hrows r hr
            show chainLen t t 0 0 r r ≤ chainLen t t 0 0 i i
            omega)
          (by
            intro _
            show chainLen t t 0 0 i i ≤ chainLen t t 0 0 i i
            exact le_refl _)
      refine ⟨rdiag, rbound, ?_, rrows, ?_⟩
      · have h3 :
            (i + 1 - chainLen t t 0 0 i i, i + 1 - chainLen t t 0 0 i i,
              chainLen t t 0 0 i i).2.2 ≤
              (dpRowAux t t 0 0 i (i + 1) cnt
                (i + 1 - chainLen t t 0 0 i i, i + 1 - chainLen t t 0 0 i i,
                  chainLen t t 0 0 i i)).2.2 := rle
        have h4 :
            (i + 1 - chainLen t t 0 0 i i, i + 1 - chainLen t t 0 0 i i,
              chainLen t t 0 0 i i).2.2 = chainLen t t 0 0 i i := rfl
        omega
      · intro _
        exact rcol (by omega)
    · rw [if_neg hupd]
      have hcol' : i < j + 1 → chainLen t t 0 0 i i ≤ best.2.2 := by
        intro h1
        rcases Nat.lt_or_ge i j with h2 | h2
        · exact hcol h2
        · have h3 : i = j := by omega
          rw [h3] at hupd ⊢
          omega
      obtain ⟨rdiag, rbound, rle, rrows, rcol⟩ :=
        dpRow_inv t i hi cnt (j + 1) best hdiag hbound hrows hcol'
      refine ⟨rdiag, rbound, rle, rrows, ?_⟩
      intro h1
      exact rcol (by omega)

/-- Outer invariant of the dictionary pass of a self-comparison: the final
best match is diagonal and lies inside the sequence. -/
theorem dpAll_inv (t : List Char) :
    ∀ (cnt i : Nat) (best : Nat × Nat × Nat),
      i + cnt ≤ t.length →
      best.1 = best.2.1 → best.1 + best.2.2 ≤ t.length →
      (∀ r, r < i → chainLen t t 0 0 r r ≤ best.2.2) →
      (dpAllAux t t 0 0 t.length i cnt best).1 =
          (dpAllAux t t 0 0 t.length i cnt best).2.1 ∧
        (dpAllAux t t 0 0 t.length i cnt best).1 +
            (dpAllAux t t 0 0 t.length i cnt best).2.2 ≤ t.length
  | 0, i, best => by
    intro _ hdiag hbound _
    exact ⟨hdiag, hbound⟩
  | cnt + 1, i, best => by
    intro hcnt hdiag hbound hrows
    simp only [dpAllAux]
    have hi : i < t.length := by omega
    obtain ⟨rdiag, rbound, _, rrows, rcol⟩ :=
      dpRow_inv t i hi (t.length - 0) 0 best hdiag hbound hrows (by omega)
    have hrows' :
        ∀ r, r < i + 1 →
          chainLen t t 0 0 r r ≤ (dpRowAux t t 0 0 i 0 (t.length - 0) best).2.2 := by
      intro r hr
      rcases Nat.lt_or_ge r i with h2 | h2
      · exact rrows r h2
      · have h3 : r = i := by omega
        rw [h3]
        exact rcol (by omega)
    exact dpAll_inv t cnt (i + 1) _ (by omega) rdiag rbound hrows'

/-- The dictionary pass of a self-comparison over the full window returns a
diagonal match inside the sequence. -/
theorem dpBest_self (t : List Char) :
    (dpBest t t 0 t.length 0 t.length).1 = (dpBest t t 0 t.length 0 t.length).2.1 ∧
      (dpBest t t 0 t.length 0 t.length).1 +
          (dpBest t t 0 t.length 0 t.length).2.2 ≤ t.length := by
  unfold dpBest
  exact dpAll_inv t (t.length - 0) 0 (0, 0, 0) (by omega) rfl (by simp)
    (fun r hr => absurd hr (Nat.not_lt_zero r))

/-- Backward extension of a diagonal self-match reaches the start of the
sequence. -/
theorem extendBack_diag (t : List Char) :
    ∀ d s, d ≤ t.length → extendBack t t 0 0 d d s = (0, 0, s + d)
  | 0, s => by
    intro _
    simp [extendBack]
  | d + 1, s => by
    intro hd
    simp only [extendBack]
    rw [if_pos]
    · rw [Nat.add_sub_cancel]
      rw [extendBack_diag t d (s + 1) (by omega)]
      have h1 : s + 1 + d = s + (d + 1) := by omega
      rw [h1]
    · refine ⟨by omega, by omega, by omega, by omega, ?_⟩
      rw [Nat.add_sub_cancel]

/-- Forward extension of a self-match anchored at the start reaches the end
of the sequence. -/
theorem extFwd_full (t : List Char) :
    ∀ fuel s, s ≤ t.length → t.length ≤ s + fuel →
      extFwdFuel t t t.length t.length 0 0 fuel s = t.length
  | 0, s => by
    intro h1 h2
    have : s = t.length := by omega
    rw [extFwdFuel, this]
  | fuel + 1, s => by
    intro h1 h2
    by_cases hs : s < t.length
    · simp only [extFwdFuel]
      have hcond : 0 + s < t.length ∧ 0 + s < t.length ∧ 0 + s < t.length ∧
          0 + s < t.length ∧ True :=
        ⟨by omega, by omega, by omega, by omega, trivial⟩
      rw [if_pos hcond]
      exact extFwd_full t fuel (s + 1) (by omega) (by omega)
    · have h3 : s = t.length := by omega
      simp only [extFwdFuel]
      rw [if_neg (fun hcontra => absurd hcontra.1 (by omega))]
      exact h3

/-- find_longest_match of a sequence against itself over the full window is
the full-window match. -/
theorem flm_self (t : List Char) :
    findLongestMatch t t 0 t.length 0 t.length = (0, 0, t.length) := by
  obtain ⟨hdiag, hbound⟩ := dpBest_self t
  unfold findLongestMatch
  dsimp only
  rw [← hdiag]
  rw [extendBack_diag t (dpBest t t 0 t.length 0 t.length).1
    (dpBest t t 0 t.length 0 t.length).2.2 (by omega)]
  dsimp only
  rw [extFwd_full t (t.length + 1)
    ((dpBest t t 0 t.length 0 t.length).2.2 + (dpBest t t 0 t.length 0 t.length).1)
    (by omega) (by omega)]

/-- find_longest_match on an empty window finds nothing. -/
theorem flm_empty (a b : List Char) (x y : Nat) :
    findLongestMatch a b x x y y = (x, y, 0) := by
  unfold findLongestMatch dpBest
  dsimp only
  rw [Nat.sub_self]
  have hdp : dpAllAux a b x y y x 0 (x, y, 0) = (x, y, 0) := rfl
  rw [hdp]
  have hback : extendBack a b x y x y 0 = (x, y, 0) := by
    cases x with
    | zero => rfl
    | succ x =>
      simp only [extendBack]
      rw [if_neg]
      intro hcontra
      omega
  rw [hback]
  dsimp only
  rw [extFwdFuel]
  rw [if_neg (fun hcontra => absurd hcontra.1 (by omega))]

/-- One unfolding step of the divide-and-conquer pass. -/
theorem matchingBlocksFuel_succ (a b : List Char) (fuel alo ahi blo bhi : Nat) :
    matchingBlocksFuel a b (fuel + 1) alo ahi blo bhi =
      if (findLongestMatch a b alo ahi blo bhi).2.2 ≠ 0 then
        matchingBlocksFuel a b fuel alo (findLongestMatch a b alo ahi blo bhi).1 blo
            (findLongestMatch a b alo ahi blo bhi).2.1 ++
          findLongestMatch a b alo ahi blo bhi ::
            matchingBlocksFuel a b fuel
              ((findLongestMatch a b alo ahi blo bhi).1 +
                (findLongestMatch a b alo ahi blo bhi).2.2) ahi
              ((findLongestMatch a b alo ahi blo bhi).2.1 +
                (findLongestMatch a b alo ahi blo bhi).2.2) bhi
      else [] := rfl

/-- On an empty window the divide-and-conquer pass finds no blocks. -/
theorem matchingBlocksFuel_empty (a b : List Char) (fuel x y : Nat) :
    matchingBlocksFuel a b (fuel + 1) x x y y = [] := by
  rw [matchingBlocksFuel_succ, flm_empty a b x y]
  simp

/-- The matching blocks of a sequence against itself: the single full block
(none when the sequence is empty), then the sentinel. -/
theorem getMatchingBlocks_self (t : List Char) :
    getMatchingBlocks t t =
      if t.length = 0 then [(0, 0, 0)]
      else [(0, 0, t.length), (t.length, t.length, 0)] := by
  unfold getMatchingBlocks
  by_cases h0 : t.length = 0
  · rw [if_pos h0, h0]
    have e1 : (0 : Nat) + 0 + 1 = 0 + 1 := by omega
    rw [e1, matchingBlocksFuel_empty t t 0 0 0]
    simp [mergeAdj]
  · rw [if_neg h0]
    obtain ⟨n, hn⟩ : ∃ n, t.length = n + 1 := ⟨t.length - 1, by omega⟩
    rw [hn]
    have hfuel : n + 1 + (n + 1) + 1 = (n + n + 2) + 1 := by omega
    rw [hfuel, matchingBlocksFuel_succ]
    rw [← hn, flm_self t, hn]
    dsimp only
    rw [if_pos (by omega : (n : Nat) + 1 ≠ 0)]
    have hf : n + n + 2 = (n + n + 1) + 1 := by omega
    rw [hf, matchingBlocksFuel_empty t t (n + n + 1) 0 0, Nat.zero_add,
      matchingBlocksFuel_empty t t (n + n + 1) (n + 1) (n + 1)]
    simp only [List.nil_append]
    simp [mergeAdj]

/-- The opcodes of a sequence against itself: one equal opcode covering the
whole sequence (none when it is empty). -/
theorem getOpcodes_self (t : List Char) :
    getOpcodes t t =
      if t.length = 0 then [] else [("equal", 0, t.length, 0, t.length)] := by
  unfold getOpcodes
  rw [getMatchingBlocks_self t]
  by_cases h0 : t.length = 0
  · rw [if_pos h0, if_pos h0]
    simp [opcodesAux]
  · rw [if_neg h0, if_neg h0]
    simp [opcodesAux, h0]

/-- diff_text on a pair of identical inputs returns the stripped text with
the changed flag false. -/
theorem diff_text_self_eq (x : String) :
    diff_text x x = some (String.mk (strippedChars x.toList), false) := by
  unfold diff_text
  rw [getOpcodes_self]
  by_cases h0 : (strippedChars x.toList).length = 0
  · rw [if_pos h0]
    have ht : strippedChars x.toList = [] := List.length_eq_zero.mp h0
    rw [ht]
    rfl
  · rw [if_neg h0]
    simp only [renderOps]
    rw [if_pos trivial]
    have hs : sliceS (strippedChars x.toList) 0 (strippedChars x.toList).length =
        String.mk (strippedChars x.toList) := by
      unfold sliceS
      rw [List.drop_zero, Nat.sub_zero, List.take_length]
    simp only [Option.map_some']
    rw [hs]
    rw [String.append_empty]

/-! ## Classifier bookkeeping -/

/-- Bool contains agrees with membership. -/
theorem contains_iff_mem (l : List Nat) (a : Nat) : l.contains a = true ↔ a ∈ l :=
  List.elem_iff

/-- Bool contains is false exactly on non-members. -/
theorem contains_false_iff (l : List Nat) (a : Nat) : l.contains a = false ↔ a ∉ l := by
  rw [Bool.eq_false_iff]
  constructor
  · intro h hmem
    exact h ((contains_iff_mem l a).mpr hmem)
  · intro h hcon
    exact h ((contains_iff_mem l a).mp hcon)

/-- A record built for an identifier carries that identifier. -/
theorem controlFor_cid (doc : List Paragraph) (cid : Nat) (ctrl : Control)
    (h : controlFor doc cid = some ctrl) : ctrl.CID = cid := by
  unfold controlFor at h
  obtain ⟨el, _, h2⟩ := Option.bind_eq_some.mp h
  obtain ⟨sk, _, h3⟩ := Option.map_eq_some'.mp h2
  rw [← h3]

/-- Running a record builder over an identifier list reproduces exactly that
identifier list (when it succeeds). -/
theorem controlsMap_cids (f : Nat → Option Control)
    (hf : ∀ cid ctrl, f cid = some ctrl → ctrl.CID = cid) :
    ∀ cids out, controlsMap f cids = some out →
      out.map (fun ctrl => ctrl.CID) = cids
  | [], out => by
    intro h
    simp only [controlsMap, Option.some_inj] at h
    rw [← h]
    rfl
  | c :: cs, out => by
    intro h
    simp only [controlsMap] at h
    cases hfc : f c with
    | none =>
      rw [hfc] at h
      exact absurd h (by simp)
    | some ctrl =>
      rw [hfc] at h
      obtain ⟨xs, hxs, hout⟩ := Option.map_eq_some'.mp h
      rw [← hout]
      simp only [List.map_cons]
      rw [controlsMap_cids f hf cs xs hxs, hf c ctrl hfc]

/-- Every record emitted by the changed loop comes from some shared
identifier whose loop body emitted it. -/
theorem changedMap_mem (f : Nat → Option (Option Control)) :
    ∀ cids out, changedMap f cids = some out →
      ∀ ctrl ∈ out, ∃ c ∈ cids, f c = some (some ctrl)
  | [], out => by
    intro h ctrl hctrl
    simp only [changedMap, Option.some_inj] at h
    rw [← h] at hctrl
    simp at hctrl
  | c :: cs, out => by
    intro h ctrl hctrl
    simp only [changedMap] at h
    cases hfc : f c with
    | none =>
      rw [hfc] at h
      exact absurd h (by simp)
    | some oc =>
      rw [hfc] at h
      cases oc with
      | none =>
        obtain ⟨c2, hc2, hf2⟩ := changedMap_mem f cs out h ctrl hctrl
        exact ⟨c2, List.mem_cons_of_mem _ hc2, hf2⟩
      | some ctrl2 =>
        obtain ⟨xs, hxs, hout⟩ := Option.map_eq_some'.mp h
        rw [← hout] at hctrl
        rcases List.mem_cons.mp hctrl with rfl | h2
        · exact ⟨c, List.mem_cons_self _ _, hfc⟩
        · obtain ⟨c2, hc2, hf2⟩ := changedMap_mem f cs xs hxs ctrl h2
          exact ⟨c2, List.mem_cons_of_mem _ hc2, hf2⟩

/-- The records of the changed loop carrying a given identifier, when the
identifier list has no duplicates: exactly the one record the loop body
emitted for it, if any. -/
theorem changedMap_filter (f : Nat → Option (Option Control))
    (hf : ∀ c ctrl, f c = some (some ctrl) → ctrl.CID = c) :
    ∀ cids : List Nat, cids.Nodup → ∀ out, changedMap f cids = some out →
      ∀ cid : Nat,
        out.filter (fun ctrl => ctrl.CID == cid) =
          if cid ∈ cids then
            match f cid with
            | some (some ctrl) => [ctrl]
            | _ => []
          else []
  | [], _, out => by
    intro h cid
    simp only [changedMap, Option.some_inj] at h
    rw [← h]
    simp
  | c :: cs, hnd, out => by
    intro h cid
    obtain ⟨hc_not, hnd2⟩ := List.nodup_cons.mp hnd
    simp only [changedMap] at h
    cases hfc : f c with
    | none =>
      rw [hfc] at h
      exact absurd h (by simp)
    | some oc =>
      rw [hfc] at h
      cases oc with
      | none =>
        have ih := changedMap_filter f hf cs hnd2 out h cid
        by_cases hcc : cid = c
        · subst hcc
          rw [ih, if_neg hc_not, if_pos (List.mem_cons_self _ _), hfc]
        · rw [ih]
          by_cases hmem : cid ∈ cs
          · rw [if_pos hmem, if_pos (List.mem_cons_of_mem _ hmem)]
          · rw [if_neg hmem, if_neg (by simp [hcc, hmem])]
      | some ctrl2 =>
        obtain ⟨xs, hxs, hout⟩ := Option.map_eq_some'.mp h
        rw [← hout]
        have hx_cid : ctrl2.CID = c := hf c ctrl2 hfc
        have ih := changedMap_filter f hf cs hnd2 xs hxs cid
        simp only [List.filter_cons]
        by_cases hcc : cid = c
        · subst hcc
          rw [if_pos (by simp [hx_cid]), ih, if_neg hc_not,
            if_pos (List.mem_cons_self _ _), hfc]
        · rw [if_neg (by simp [hx_cid]; omega), ih]
          by_cases hmem : cid ∈ cs
          · rw [if_pos hmem, if_pos (List.mem_cons_of_mem _ hmem)]
          · rw [if_neg hmem, if_neg (by simp [hcc, hmem])]

/-- Unpack a successful comparison into its three loops. -/
theorem compare_files_eq (oldDoc newDoc : List Paragraph) (a r c : List Control)
    (h : compare_files oldDoc newDoc = some (a, r, c)) :
    controlsAdded oldDoc newDoc = some a ∧ controlsRemoved oldDoc newDoc = some r ∧
      controlsChanged oldDoc newDoc = some c := by
  unfold compare_files at h
  cases ha : controlsAdded oldDoc newDoc with
  | none =>
    rw [ha] at h
    exact absurd h (by simp)
  | some a2 =>
    rw [ha] at h
    cases hr : controlsRemoved oldDoc newDoc with
    | none =>
      rw [hr] at h
      exact absurd h (by simp)
    | some r2 =>
      rw [hr] at h
      cases hc : controlsChanged oldDoc newDoc with
      | none =>
        rw [hc] at h
        exact absurd h (by simp)
      | some c2 =>
        rw [hc] at h
        simp only [Option.some_inj, Prod.mk.injEq] at h
        obtain ⟨h1, h2, h3⟩ := h
        subst h1
        subst h2
        subst h3
        exact ⟨rfl, rfl, rfl⟩

/-- A successful find places the identifier in the document identifier list,
and the found element carries it. -/
theorem findCid_mem (doc : List Paragraph) (cid : Nat) (el : Paragraph)
    (h : findCid doc cid = some el) : cid ∈ cidList doc ∧ el.cid = cid := by
  unfold findCid at h
  have hmem := List.mem_of_find?_eq_some h
  have hpred := List.find?_some h
  simp only [beq_iff_eq] at hpred
  refine ⟨?_, hpred⟩
  unfold cidList
  rw [List.mem_dedup, ← hpred]
  exact List.mem_map_of_mem _ hmem

/-- The changed loop body under known finds. -/
theorem changedOne_of_finds (oldDoc newDoc : List Paragraph) (cid : Nat)
    (oe ne : Paragraph) (ho : findCid oldDoc cid = some oe)
    (hn : findCid newDoc cid = some ne) :
    changedOne oldDoc newDoc cid =
      if oe.text = ne.text then some none
      else
        match diff_text oe.text ne.text with
        | none => none
        | some (text, text_changed) =>
          if text_changed = false then some none
          else
            match sortkey ne.title with
            | none => none
            | some sk =>
              some (some
                { CID := cid, sortkey := sk, title := ne.title,
                  classifications := ne.classifications,
                  compliances := ne.compliances, text := text }) := by
  unfold changedOne
  rw [ho, hn]

/-- A record emitted by the changed loop body carries its identifier. -/
theorem changedOne_cid (oldDoc newDoc : List Paragraph) (cid : Nat) (ctrl : Control)
    (h : changedOne oldDoc newDoc cid = some (some ctrl)) : ctrl.CID = cid := by
  unfold changedOne at h
  cases ho : findCid oldDoc cid with
  | none => simp [ho] at h
  | some oe =>
    cases hn : findCid newDoc cid with
    | none => simp [ho, hn] at h
    | some ne =>
      simp only [ho, hn] at h
      by_cases hteq : oe.text = ne.text
      · simp [if_pos hteq] at h
      · simp only [if_neg hteq] at h
        cases hd : diff_text oe.text ne.text with
        | none => simp [hd] at h
        | some pair =>
          obtain ⟨text, flag⟩ := pair
          simp only [hd] at h
          by_cases hflag : flag = false
          · simp [if_pos hflag] at h
          · simp only [if_neg hflag] at h
            cases hsk : sortkey ne.title with
            | none => simp [hsk] at h
            | some sk =>
              simp only [hsk, Option.some_inj] at h
              rw [← h]

/-- The identifiers of the added records are exactly new minus old. -/
theorem added_cids (oldDoc newDoc : List Paragraph) (a : List Control)
    (h : controlsAdded oldDoc newDoc = some a) :
    (a.map (fun ctrl => ctrl.CID)).toFinset = docCids newDoc \ docCids oldDoc := by
  unfold controlsAdded at h
  rw [controlsMap_cids (controlFor newDoc) (controlFor_cid newDoc) _ _ h]
  ext y
  simp only [List.mem_toFinset, List.mem_filter, Finset.mem_sdiff, docCids,
    Bool.not_eq_true', contains_false_iff]

/-- The identifiers of the removed records are exactly old minus new. -/
theorem removed_cids (oldDoc newDoc : List Paragraph) (r : List Control)
    (h : controlsRemoved oldDoc newDoc = some r) :
    (r.map (fun ctrl => ctrl.CID)).toFinset = docCids oldDoc \ docCids newDoc := by
  unfold controlsRemoved at h
  rw [controlsMap_cids (controlFor oldDoc) (controlFor_cid oldDoc) _ _ h]
  ext y
  simp only [List.mem_toFinset, List.mem_filter, Finset.mem_sdiff, docCids,
    Bool.not_eq_true', contains_false_iff]

/-- The identifiers of the changed records lie in the intersection. -/
theorem changed_cids_subset (oldDoc newDoc : List Paragraph) (c : List Control)
    (h : controlsChanged oldDoc newDoc = some c) :
    (c.map (fun ctrl => ctrl.CID)).toFinset ⊆ docCids oldDoc ∩ docCids newDoc := by
  intro y hy
  simp only [List.mem_toFinset, List.mem_map] at hy
  obtain ⟨ctrl, hctrl, hcid⟩ := hy
  unfold controlsChanged at h
  obtain ⟨c2, hc2_mem, hc2_f⟩ := changedMap_mem _ _ _ h ctrl hctrl
  obtain ⟨hmem_old, hcont⟩ := List.mem_filter.mp hc2_mem
  have hcid2 : ctrl.CID = c2 := changedOne_cid oldDoc newDoc c2 ctrl hc2_f
  rw [Finset.mem_inter]
  rw [← hcid, hcid2]
  simp only [docCids, List.mem_toFinset]
  exact ⟨hmem_old, (contains_iff_mem _ _).mp hcont⟩

/-- If no record of a list carries an identifier, the identifier is not
among the mapped identifiers. -/
theorem not_mem_map_of_filter_nil (c : List Control) (cid : Nat)
    (hfe : c.filter (fun ctrl => ctrl.CID == cid) = []) :
    cid ∉ c.map (fun ctrl => ctrl.CID) := by
  intro hmem
  rw [List.mem_map] at hmem
  obtain ⟨ctrl, hctrl, hcid⟩ := hmem
  have hin : ctrl ∈ c.filter (fun ctrl => ctrl.CID == cid) := by
    rw [List.mem_filter]
    exact ⟨hctrl, by simp [hcid]⟩
  rw [hfe] at hin
  simp at hin

/-- The changed records carrying a given shared identifier, characterized by
the changed loop body for that identifier. -/
theorem changed_filter_spec (oldDoc newDoc : List Paragraph) (c : List Control)
    (cid : Nat) (oe ne : Paragraph)
    (hc : controlsChanged oldDoc newDoc = some c)
    (ho : findCid oldDoc cid = some oe) (hn : findCid newDoc cid = some ne) :
    c.filter (fun ctrl => ctrl.CID == cid) =
      match
        (if oe.text = ne.text then some none
          else
            match diff_text oe.text ne.text with
            | none => none
            | some (text, text_changed) =>
              if text_changed = false then some (none : Option Control)
              else
                match sortkey ne.title with
                | none => none
                | some sk =>
                  some (some
                    { CID := cid, sortkey := sk, title := ne.title,
                      classifications := ne.classifications,
                      compliances := ne.compliances, text := text })) with
      | some (some ctrl) => [ctrl]
      | _ => [] := by
  unfold controlsChanged at hc
  have hnodup : ((cidList oldDoc).filter (fun x => (cidList newDoc).contains x)).Nodup :=
    (List.nodup_dedup _).filter _
  have hfilter :=
    changedMap_filter (changedOne oldDoc newDoc) (changedOne_cid oldDoc newDoc) _
      hnodup c hc cid
  have hmem_inter :
      cid ∈ (cidList oldDoc).filter (fun x => (cidList newDoc).contains x) := by
    rw [List.mem_filter]
    obtain ⟨hmo, _⟩ := findCid_mem oldDoc cid oe ho
    obtain ⟨hmn, _⟩ := findCid_mem newDoc cid ne hn
    exact ⟨hmo, (contains_iff_mem _ _).mpr hmn⟩
  rw [if_pos hmem_inter, changedOne_of_finds oldDoc newDoc cid oe ne ho hn] at hfilter
  exact hfilter

/-! ## Claim C1 -/

/-- Claim C1 (confirmed).  For every pair of documents on which the
comparison succeeds, the added records carry exactly the identifiers of the
new document minus the old, the removed records exactly old minus new, the
changed records a subset of the intersection; added, changed and unchanged
identifiers partition the new key set, removed, changed and unchanged
identifiers partition the old key set, and added and removed are disjoint. -/
theorem classifier_totality_c1 (oldDoc newDoc : List Paragraph) (a r c : List Control)
    (h : compare_files oldDoc newDoc = some (a, r, c)) :
    (a.map (fun ctrl => ctrl.CID)).toFinset = docCids newDoc \ docCids oldDoc ∧
      (r.map (fun ctrl => ctrl.CID)).toFinset = docCids oldDoc \ docCids newDoc ∧
      (c.map (fun ctrl => ctrl.CID)).toFinset ⊆ docCids oldDoc ∩ docCids newDoc ∧
      (a.map (fun ctrl => ctrl.CID)).toFinset ∪ (c.map (fun ctrl => ctrl.CID)).toFinset ∪
          ((docCids oldDoc ∩ docCids newDoc) \ (c.map (fun ctrl => ctrl.CID)).toFinset) =
        docCids newDoc ∧
      (r.map (fun ctrl => ctrl.CID)).toFinset ∪ (c.map (fun ctrl => ctrl.CID)).toFinset ∪
          ((docCids oldDoc ∩ docCids newDoc) \ (c.map (fun ctrl => ctrl.CID)).toFinset) =
        docCids oldDoc ∧
      (a.map (fun ctrl => ctrl.CID)).toFinset ∩ (r.map (fun ctrl => ctrl.CID)).toFinset =
        ∅ := by
  obtain ⟨ha, hr, hc⟩ := compare_files_eq oldDoc newDoc a r c h
  have hA := added_cids oldDoc newDoc a ha
  have hR := removed_cids oldDoc newDoc r hr
  have hCsub := changed_cids_subset oldDoc newDoc c hc
  refine ⟨hA, hR, hCsub, ?_, ?_, ?_⟩
  · rw [hA]
    ext y
    have hy := @hCsub y
    simp only [Finset.mem_union, Finset.mem_sdiff, Finset.mem_inter] at hy ⊢
    constructor
    · rintro ((⟨h1, _⟩ | h1) | ⟨⟨_, h2⟩, _⟩)
      · exact h1
      · exact (hy h1).2
      · exact h2
    · intro h1
      by_cases h2 : y ∈ docCids oldDoc
      · by_cases h3 : y ∈ (c.map (fun ctrl => ctrl.CID)).toFinset
        · exact Or.inl (Or.inr h3)
        · exact Or.inr ⟨⟨h2, h1⟩, h3⟩
      · exact Or.inl (Or.inl ⟨h1, h2⟩)
  · rw [hR]
    ext y
    have hy := @hCsub y
    simp only [Finset.mem_union, Finset.mem_sdiff, Finset.mem_inter] at hy ⊢
    constructor
    · rintro ((⟨h1, _⟩ | h1) | ⟨⟨h1, _⟩, _⟩)
      · exact h1
      · exact (hy h1).1
      · exact h1
    · intro h1
      by_cases h2 : y ∈ docCids newDoc
      · by_cases h3 : y ∈ (c.map (fun ctrl => ctrl.CID)).toFinset
        · exact Or.inl (Or.inr h3)
        · exact Or.inr ⟨⟨h1, h2⟩, h3⟩
      · exact Or.inl (Or.inl ⟨h1, h2⟩)
  · rw [hA, hR]
    ext y
    simp only [Finset.mem_inter, Finset.mem_sdiff, Finset.not_mem_empty, iff_false]
    rintro ⟨⟨_, h2⟩, h3, _⟩
    exact h2 h3

/-- Witness for C1: the added identifiers of the concrete scenario (control
5 on both sides, control 6 only on the new side). -/
theorem classifier_totality_c1_witness :
    ((([({ CID := 6, sortkey := "001001002001", title := "1.1.2.C.01.",
           classifications := "All Classifications", compliances := "Must",
           text := "New control." } : Control)]).map
        (fun ctrl => ctrl.CID)).toFinset) =
      docCids docNewEx \ docCids docOldEx :=
  (classifier_totality_c1 docOldEx docNewEx
    [({ CID := 6, sortkey := "001001002001", title := "1.1.2.C.01.",
        classifications := "All Classifications", compliances := "Must",
        text := "New control." } : Control)] [] [] (by decide)).1

/-! ## Claim C5 -/

/-- Claim C5 (confirmed).  For an identifier present in both documents:
byte-identical body text emits nothing (the differ is not reached - the loop
body returns before invoking it); a diff whose changed flag is false emits
nothing; otherwise exactly one changed record is emitted, whose title,
classifications, compliances and sort key all come from the new side and
whose text is the highlighted diff fragment instead of the raw text. -/
theorem changed_per_identifier_c5 (oldDoc newDoc : List Paragraph)
    (a r c : List Control) (cid : Nat) (oe ne : Paragraph)
    (h : compare_files oldDoc newDoc = some (a, r, c))
    (ho : findCid oldDoc cid = some oe) (hn : findCid newDoc cid = some ne) :
    (oe.text = ne.text → cid ∉ c.map (fun ctrl => ctrl.CID)) ∧
      (∀ t : String, diff_text oe.text ne.text = some (t, false) →
        cid ∉ c.map (fun ctrl => ctrl.CID)) ∧
      (∀ t sk : String, oe.text ≠ ne.text →
        diff_text oe.text ne.text = some (t, true) → sortkey ne.title = some sk →
        c.filter (fun ctrl => ctrl.CID == cid) =
          [{ CID := cid, sortkey := sk, title := ne.title,
             classifications := ne.classifications, compliances := ne.compliances,
             text := t }]) := by
  obtain ⟨_, _, hc⟩ := compare_files_eq oldDoc newDoc a r c h
  refine ⟨?_, ?_, ?_⟩
  · intro hteq
    have hfilter := changed_filter_spec oldDoc newDoc c cid oe ne hc ho hn
    rw [if_pos hteq] at hfilter
    exact not_mem_map_of_filter_nil c cid (hfilter.trans rfl)
  · intro t hdiff
    have hfilter := changed_filter_spec oldDoc newDoc c cid oe ne hc ho hn
    by_cases hteq : oe.text = ne.text
    · rw [if_pos hteq] at hfilter
      exact not_mem_map_of_filter_nil c cid (hfilter.trans rfl)
    · rw [if_neg hteq, hdiff] at hfilter
      exact not_mem_map_of_filter_nil c cid (hfilter.trans rfl)
  · intro t sk hne hdiff hsk
    have hfilter := changed_filter_spec oldDoc newDoc c cid oe ne hc ho hn
    rw [if_neg hne, hdiff, hsk] at hfilter
    exact hfilter.trans rfl

/-- Old-side document of the changed-control witness scenario. -/
def docOldCh : List Paragraph :=
  [⟨101, "1.1.1.C.01.", "All Classifications", "Must", "ab"⟩]

/-- New-side document of the changed-control witness scenario. -/
def docNewCh : List Paragraph :=
  [⟨101, "1.1.1.C.01.", "All Classifications", "Must", "axb"⟩]

/-- Witness for C5: in the changed-control scenario the single emitted
record carries the new-side metadata and the highlighted diff fragment. -/
theorem changed_per_identifier_c5_witness :
    ([({ CID := 101, sortkey := "001001001001", title := "1.1.1.C.01.",
         classifications := "All Classifications", compliances := "Must",
         text := "a<span class=\"insert\">x</span>b" } : Control)]).filter
        (fun ctrl => ctrl.CID == 101) =
      [{ CID := 101, sortkey := "001001001001", title := "1.1.1.C.01.",
         classifications := "All Classifications", compliances := "Must",
         text := "a<span class=\"insert\">x</span>b" }] :=
  (changed_per_identifier_c5 docOldCh docNewCh [] []
      [({ CID := 101, sortkey := "001001001001", title := "1.1.1.C.01.",
          classifications := "All Classifications", compliances := "Must",
          text := "a<span class=\"insert\">x</span>b" } : Control)] 101
      ⟨101, "1.1.1.C.01.", "All Classifications", "Must", "ab"⟩
      ⟨101, "1.1.1.C.01.", "All Classifications", "Must", "axb"⟩
      (by decide) (by decide) (by decide)).2.2
    "a<span class=\"insert\">x</span>b" "001001001001" (by decide) (by decide)
    (by decide)

/-! ## Claim C6 -/

/-- Counterexample to C6 as stated: diff(x, x) is not (x, false) for every
x.  The differ first strips markup and whitespace from both sides, so for
x = " hello " it returns the stripped text "hello", not x itself. -/
theorem diff_idempotent_c6_counterexample :
    diff_text " hello " " hello " = some ("hello", false) ∧
      diff_text " hello " " hello " ≠ some (" hello ", false) := by
  exact ⟨by decide, by decide⟩

/-- Claim C6 (amended).  For every string x, diff(x, x) = (strip(x), false),
where strip is the markup-stripping text extraction the differ applies to
both inputs (so the changed flag is always false, and the output is x itself
whenever x is plain text with no surrounding whitespace); and a control
whose text is byte-identical across versions never appears in the changed
result set. -/
theorem diff_idempotent_c6 :
    (∀ x : String, diff_text x x = some (String.mk (strippedChars x.toList), false)) ∧
      (∀ (oldDoc newDoc : List Paragraph) (a r c : List Control) (cid : Nat)
        (oe ne : Paragraph),
        compare_files oldDoc newDoc = some (a, r, c) →
        findCid oldDoc cid = some oe → findCid newDoc cid = some ne →
        oe.text = ne.text → cid ∉ c.map (fun ctrl => ctrl.CID)) := by
  refine ⟨diff_text_self_eq, ?_⟩
  intro oldDoc newDoc a r c cid oe ne h ho hn hteq
  obtain ⟨_, _, hc⟩ := compare_files_eq oldDoc newDoc a r c h
  have hfilter := changed_filter_spec oldDoc newDoc c cid oe ne hc ho hn
  rw [if_pos hteq] at hfilter
  exact not_mem_map_of_filter_nil c cid (hfilter.trans rfl)

/-- Witness for C6: control 5, byte-identical across the concrete scenario,
is absent from the (empty) changed record list. -/
theorem diff_idempotent_c6_witness :
    (5 : Nat) ∉ (([] : List Control).map (fun ctrl => ctrl.CID)) :=
  diff_idempotent_c6.2 docOldEx docNewEx
    [({ CID := 6, sortkey := "001001002001", title := "1.1.2.C.01.",
        classifications := "All Classifications", compliances := "Must",
        text := "New control." } : Control)] [] [] 5
    ⟨5, "1.1.1.C.01.", "All Classifications", "Must", "Agencies MUST comply."⟩
    ⟨5, "1.1.1.C.01.", "All Classifications", "Must", "Agencies MUST comply."⟩
    (by decide) (by decide) (by decide) rfl

end NZISM
